import Mathlib

/-!
Verification development for the `otah` repository (src/otah.py).

The program converts an iOS `.ipa` archive (a zip file) into an OTA
installation manifest:

* `_parse_app_name` scans the archive's entry names with the regular
  expression `Payload/(\w+).app/?(.*)` and returns the first match's group 1;
* `Manifest.__init__` opens the archive, derives the app name, and decodes
  `Payload/<name>.app/Info.plist` via `plistlib.load`;
* `Manifest.create` builds a fixed-shape dictionary from the app name, the
  host URL and two `Info.plist` fields, and serializes it with
  `plistlib.dumps(..., sort_keys=False)` (which, with no `fmt` argument,
  produces the XML property-list format, not the binary `bplist00` format).

The embedding below models the Python-level values as `PlistValue`, archives
as ordered entry lists, and the exercised behaviour of the standard library
`plistlib` (XML serialization including `_escape`, and decoding of exactly
the documents the serializer emits).  Strings model the byte output; all
bytes asserted on are ASCII, where codepoints and UTF-8 bytes coincide.
-/

/-- Python-level exceptions raised by the code paths modelled here, tagged by
the raise site in `src/otah.py` / `plistlib`. -/
inductive PyErr where
  /-- `RuntimeError` raised by `Manifest.__init__` when no app name is found. -/
  | runtimeNoAppName
  /-- `KeyError` raised by `zipfile.ZipFile.open` for a missing entry name. -/
  | keyErrorEntry (name : String)
  /-- any exception raised by `plistlib.load` on undecodable entry bytes. -/
  | plistLoadError
  /-- `KeyError` raised by `self.info[key]` for a missing metadata key. -/
  | keyErrorField (key : String)
  /-- `TypeError` raised by subscripting a non-dict metadata value. -/
  | typeErrorSubscript
  /-- `ValueError` raised by `plistlib._escape` on control characters. -/
  | valueErrorControlChar
  /-- `OverflowError` raised by `plistlib` for integers outside the plist range. -/
  | overflowErrorInt
  deriving DecidableEq, Repr

/-- Modelled from the spec: the error taxonomy of §7 (`ArchiveUnreadable`,
`InvalidApplicationArchive`, `MetadataUnreadable`, `MissingMetadataField`),
plus a catch-all for exceptions the spec does not classify. -/
inductive SpecErrorKind where
  | archiveUnreadable
  | invalidApplicationArchive
  | metadataUnreadable
  | missingMetadataField (key : String)
  | otherError
  deriving DecidableEq, Repr

/-- Modelled from the spec: which taxonomy kind each concrete Python
exception falls under.  §7 assigns the missing-app-name failure to
`InvalidApplicationArchive`, missing/undecodable `Info.plist` to
`MetadataUnreadable`, and a missing required metadata key to
`MissingMetadataField` (naming the key). -/
def specKind : PyErr → SpecErrorKind
  | .runtimeNoAppName => .invalidApplicationArchive
  | .keyErrorEntry _ => .metadataUnreadable
  | .plistLoadError => .metadataUnreadable
  | .keyErrorField k => .missingMetadataField k
  | .typeErrorSubscript => .otherError
  | .valueErrorControlChar => .otherError
  | .overflowErrorInt => .otherError

/-! Character classes. -/

/-- Python `\w` (word character), restricted to ASCII: letters, digits and
underscore.  The reference implementation matches Unicode word characters;
all entry names exercised in this development are ASCII, where the two
agree. -/
def isWordChar (c : Char) : Bool := c.isAlphanum || c = '_'

/-- The control characters rejected by `plistlib._escape`:
`\x00`-`\x1f` except tab, newline and carriage return. -/
def isPlistControl (c : Char) : Bool :=
  c.toNat < 32 && c ≠ '\t' && c ≠ '\n' && c ≠ '\r'

/-- XML inter-element whitespace as skipped by the plist parser. -/
def isXmlWs (c : Char) : Bool := c = ' ' || c = '\t' || c = '\n' || c = '\r'

/-! The string transformation performed by `plistlib._escape`:
line-ending conversion followed by XML entity escaping. -/

/-- Line-ending conversion of `plistlib._escape`:
`text.replace("\r\n", "\n").replace("\r", "\n")`.  A single left-to-right
pass collapsing each `\r\n` pair to `\n` and mapping every remaining `\r`
to `\n` computes the same result, because the first `replace` matches
non-overlapping `\r\n` pairs left to right and its replacement text
introduces no new `\r`. -/
def crlf : List Char → List Char
  | [] => []
  | [c] => [if c = '\r' then '\n' else c]
  | c1 :: c2 :: rest =>
    if c1 = '\r' then
      if c2 = '\n' then '\n' :: crlf rest
      else '\n' :: crlf (c2 :: rest)
    else c1 :: crlf (c2 :: rest)

/-- Entity escaping of `plistlib._escape`: `&` → `&amp;`, `<` → `&lt;`,
`>` → `&gt;` (the sequential `str.replace` calls, `&` first, are equivalent
to this single per-character pass). -/
def escChar (c : Char) : List Char :=
  if c = '&' then "&amp;".data
  else if c = '<' then "&lt;".data
  else if c = '>' then "&gt;".data
  else [c]

/-- The successful result of `plistlib._escape`. -/
def escape1 (s : List Char) : List Char := (crlf s).flatMap escChar

/-- `plistlib._escape`: rejects control characters, then converts line
endings and escapes XML entities. -/
def plistEscape (s : List Char) : Except PyErr (List Char) :=
  if s.any isPlistControl then .error .valueErrorControlChar
  else .ok (escape1 s)

/-- Inverse entity decoding, as performed by the XML parser underlying
`plistlib.loads` on the (only) entities the serializer emits. -/
def unesc : List Char → List Char
  | [] => []
  | '&' :: 'a' :: 'm' :: 'p' :: ';' :: rest => '&' :: unesc rest
  | '&' :: 'l' :: 't' :: ';' :: rest => '<' :: unesc rest
  | '&' :: 'g' :: 't' :: ';' :: rest => '>' :: unesc rest
  | c :: rest => c :: unesc rest

/-! The property-list value universe.  `plistlib` round-trips Python `str`,
`int`, `bool`, `list` and `dict` values through these documents; the model
restricts to those five kinds (the repository's manifest uses only strings,
lists and dicts; `real`/`date`/`data` values are outside the model). -/

inductive PlistValue where
  | str (s : String)
  | int (n : Int)
  | bool (b : Bool)
  | arr (items : List PlistValue)
  | dict (entries : List (String × PlistValue))
  deriving Repr

/-! Serializer: a faithful translation of `plistlib._PlistWriter` for the XML
plist format with `sort_keys=False` (the only configuration `Manifest.create`
uses: `plistlib.dumps(value, sort_keys=False)` keeps the default
`fmt=FMT_XML`).  Output is produced line by line; `writeln` indents with one
tab per nesting level. -/

/-- Tab indentation of `plistlib._DumbXMLWriter` (`indent = b"\t"`). -/
def ind (lvl : Nat) : List Char := List.replicate lvl '\t'

def tagStr : List Char := "<string>".data
def tagStrClose : List Char := "</string>".data
def tagInt : List Char := "<integer>".data
def tagIntClose : List Char := "</integer>".data
def tagTrue : List Char := "<true/>".data
def tagFalse : List Char := "<false/>".data
def tagArr : List Char := "<array>".data
def tagArrEmpty : List Char := "<array/>".data
def tagArrClose : List Char := "</array>".data
def tagDict : List Char := "<dict>".data
def tagDictEmpty : List Char := "<dict/>".data
def tagDictClose : List Char := "</dict>".data
def tagKey : List Char := "<key>".data
def tagKeyClose : List Char := "</key>".data

/-- First line of `plistlib.PLISTHEADER`. -/
def xmlDecl : List Char := "<?xml version=\"1.0\" encoding=\"UTF-8\"?>\n".data

/-- Second line of `plistlib.PLISTHEADER`. -/
def docType : List Char :=
  "<!DOCTYPE plist PUBLIC \"-//Apple//DTD PLIST 1.0//EN\" \"http://www.apple.com/DTDs/PropertyList-1.0.dtd\">\n".data

def plistOpenTag : List Char := "<plist version=\"1.0\">\n".data
def plistCloseTag : List Char := "</plist>\n".data

/-- Decimal digits of a natural number, most significant first, as printed by
Python `"%d"`.  The first argument is fuel; `n` itself is always sufficient
since the digit count of `n` never exceeds `n`. -/
def natDecAux : Nat → Nat → List Char
  | 0, n => [Char.ofNat (48 + n % 10)]
  | fuel + 1, n =>
    if n < 10 then [Char.ofNat (48 + n)]
    else natDecAux fuel (n / 10) ++ [Char.ofNat (48 + n % 10)]

def natDec (n : Nat) : List Char := natDecAux n n

/-- Python `"%d" % value` for an `int`. -/
def intDec (n : Int) : List Char :=
  if n < 0 then '-' :: natDec n.natAbs else natDec n.toNat

mutual
/-- `plistlib._PlistWriter.write_value` (XML), value case dispatch.  The
integer bounds check is `-1 << 63 <= value < 1 << 64`.  Non-empty arrays and
dicts open a tag, indent children one level deeper, and close the tag on its
own line; empty ones emit a self-closing element.  Dict entries are written
in insertion order (`sort_keys=False`). -/
def write_value : PlistValue → Nat → Except PyErr (List Char)
  | .str s, lvl => do
      let e ← plistEscape s.data
      pure (ind lvl ++ tagStr ++ e ++ tagStrClose ++ ['\n'])
  | .int n, lvl =>
      if -(2 ^ 63 : Int) ≤ n ∧ n < 2 ^ 64 then
        pure (ind lvl ++ tagInt ++ intDec n ++ tagIntClose ++ ['\n'])
      else .error .overflowErrorInt
  | .bool true, lvl => pure (ind lvl ++ tagTrue ++ ['\n'])
  | .bool false, lvl => pure (ind lvl ++ tagFalse ++ ['\n'])
  | .arr [], lvl => pure (ind lvl ++ tagArrEmpty ++ ['\n'])
  | .arr (v :: vs), lvl => do
      let body ← write_list (v :: vs) (lvl + 1)
      pure (ind lvl ++ tagArr ++ ['\n'] ++ body ++ ind lvl ++ tagArrClose ++ ['\n'])
  | .dict [], lvl => pure (ind lvl ++ tagDictEmpty ++ ['\n'])
  | .dict (kv :: kvs), lvl => do
      let body ← write_pairs (kv :: kvs) (lvl + 1)
      pure (ind lvl ++ tagDict ++ ['\n'] ++ body ++ ind lvl ++ tagDictClose ++ ['\n'])

/-- `plistlib._PlistWriter.write_array` body: each element in sequence. -/
def write_list : List PlistValue → Nat → Except PyErr (List Char)
  | [], _ => pure []
  | v :: vs, lvl => do
      let h ← write_value v lvl
      let t ← write_list vs lvl
      pure (h ++ t)

/-- `plistlib._PlistWriter.write_dict` body with `sort_keys=False`: for each
entry, a `<key>` line (escaped like any string) followed by the value. -/
def write_pairs : List (String × PlistValue) → Nat → Except PyErr (List Char)
  | [], _ => pure []
  | (k, v) :: kvs, lvl => do
      let ke ← plistEscape k.data
      let hv ← write_value v lvl
      let t ← write_pairs kvs lvl
      pure (ind lvl ++ tagKey ++ ke ++ tagKeyClose ++ ['\n'] ++ hv ++ t)
end

/-- `plistlib.dumps(value, sort_keys=False)`: the two header lines, the
`<plist>` wrapper and the value at indent level 0.  Only the
`sort_keys=False` path is modelled, which is the only call configuration in
`src/otah.py`. -/
def plistlib_dumps (v : PlistValue) : Except PyErr (List Char) := do
  let body ← write_value v 0
  pure (xmlDecl ++ docType ++ plistOpenTag ++ body ++ plistCloseTag)

/-! The archive and the `Manifest` class of `src/otah.py`. -/

/-- An opened zip archive: its ordered entry list.  Each entry name carries
what `plistlib.load` would produce for that entry's bytes (`none` when the
bytes are not a decodable property list); this abstracts entry contents and
the standard library's plist reader, which the repository uses as a black
box. -/
structure ZipArchive where
  files : List (String × Option PlistValue)

/-- `zipfile.ZipFile.namelist()`: entry names in archive order. -/
def ZipArchive.namelist (z : ZipArchive) : List String := z.files.map (fun e => e.1)

/-- `zipfile.ZipFile.open(name)` combined with `plistlib.load`: `none` when
the entry does not exist (`KeyError`), `some none` when it exists but its
bytes do not decode, `some (some v)` on success.  `zipfile` resolves
duplicate names to the last occurrence (`NameToInfo` is built by iterated
assignment). -/
def ZipArchive.openEntry (z : ZipArchive) (n : String) : Option (Option PlistValue) :=
  (z.files.reverse.find? (fun e => e.1 == n)).map (fun e => e.2)

/-- `True` after "app" in the pattern `Payload/(\w+).app/?(.*)` at this point
of the subject: the unescaped `.` matches any character except newline, then
the literal `app`; the trailing `/?(.*)` matches unconditionally. -/
def dotAppAt : List Char → Bool
  | c :: 'a' :: 'p' :: 'p' :: _ => c ≠ '\n'
  | _ => false

/-- Greedy backtracking of `\w+`: the largest `k ≤ bound`, `k ≥ 1`, such that
the remainder after the first `k` characters matches `.app/?(.*)`. -/
def tryFrom (r : List Char) : Nat → Option Nat
  | 0 => none
  | k + 1 => if dotAppAt (r.drop (k + 1)) then some (k + 1) else tryFrom r k

/-- `RE_PLIST_PATH.match(path)` restricted to group 1:
`re.compile(r"Payload/(\w+).app/?(.*)")` anchored at the start of `path`.
`\w+` can only take a prefix of the maximal word-character run after
`Payload/`, and being greedy takes the longest prefix whose continuation
matches `.app/?(.*)`. -/
def RE_PLIST_PATH_group1 (path : String) : Option String :=
  let cs := path.data
  if ("Payload/".data).isPrefixOf cs then
    let r := cs.drop 8
    (tryFrom r (r.takeWhile isWordChar).length).map (fun k => String.mk (r.take k))
  else none

/-- `otah._parse_app_name`: first regex match over `namelist()`, else `""`. -/
def _parse_app_name (z : ZipArchive) : String :=
  match z.namelist.findSome? RE_PLIST_PATH_group1 with
  | some name => name
  | none => ""

/-- The constructed `Manifest` object's attributes (`appname`, `info`). -/
structure Manifest where
  appname : String
  info : PlistValue

def infoPlistPath (appname : String) : String :=
  "Payload/" ++ appname ++ ".app/Info.plist"

/-- `Manifest.__init__` after the zip handle is opened: derive the app name;
if non-empty, open and decode `Payload/<name>.app/Info.plist`, else raise
`RuntimeError`.  The body contains no `close()` call on any path. -/
def Manifest.init (z : ZipArchive) : Except PyErr Manifest :=
  let appname := _parse_app_name z
  if appname ≠ "" then
    match z.openEntry (infoPlistPath appname) with
    | none => .error (.keyErrorEntry (infoPlistPath appname))
    | some none => .error .plistLoadError
    | some (some info) => .ok ⟨appname, info⟩
  else .error .runtimeNoAppName

/-- `with Manifest(path) as manifest: body` as used by `_main`.  The boolean
records whether the zip handle is closed when control leaves the statement:
`__exit__` (the only close site) runs only when `Manifest.__init__` returned
normally; an exception during `__init__` propagates with the handle still
open. -/
def withManifest {β : Type} (z : ZipArchive) (body : Manifest → β) :
    Except PyErr β × Bool :=
  match Manifest.init z with
  | .error e => (.error e, false)
  | .ok m => (.ok (body m), true)

/-- Python `dict` lookup on the decoded plist mapping, as an association
list: a decoded `dict` has one entry per key. -/
def pyLookup (entries : List (String × PlistValue)) (key : String) : Option PlistValue :=
  (entries.find? (fun e => e.1 == key)).map (fun e => e.2)

/-- `value[key]` on a metadata value: `KeyError(key)` when the key is absent,
`TypeError` when the value is not a dict. -/
def pyIndex (v : PlistValue) (key : String) : Except PyErr PlistValue :=
  match v with
  | .dict entries =>
      match pyLookup entries key with
      | some x => .ok x
      | none => .error (.keyErrorField key)
  | _ => .error .typeErrorSubscript

/-- The dictionary literal built by `Manifest.create`, with the two metadata
lookups already performed.  Key insertion order is exactly as written in the
source. -/
def manifestDict (appname host : String) (bid bver : PlistValue) : PlistValue :=
  .dict [("items", .arr [
    .dict [
      ("assets", .arr [
        .dict [("kind", .str ("software-package")), ("url", .str host)]]),
      ("metadata", .dict [
        ("bundle-identifier", bid),
        ("bundle-version", bver),
        ("kind", .str ("software")),
        ("title", .str appname)])]])]

/-- `Manifest.create(host, secure, ...)` up to the returned bytes: the two
metadata lookups (evaluated in source order inside the dict literal, so a
missing `CFBundleIdentifier` raises first), then serialization.  The
`secure` parameter is accepted but never read by the body. -/
def Manifest.create (m : Manifest) (host : String) (secure : Bool) :
    Except PyErr (List Char) := do
  let bid ← pyIndex m.info ("CFBundleIdentifier")
  let bver ← pyIndex m.info ("CFBundleShortVersionString")
  plistlib_dumps (manifestDict m.appname host bid bver)

/-- `Manifest.create` including the optional `filehandle` side effect: the
second component lists the chunks written to the file handle.
`filehandle.write(plist_data)` runs only after `plistlib.dumps` returned, so
an exception anywhere earlier leaves the sink untouched. -/
def Manifest.createRun (m : Manifest) (host : String) (secure : Bool)
    (hasFilehandle : Bool) : Except PyErr (List Char) × List (List Char) :=
  match Manifest.create m host secure with
  | .ok b => (.ok b, if hasFilehandle then [b] else [])
  | .error e => (.error e, [])

/-! Decoder: `plistlib.loads` restricted to the class of documents the
serializer above emits (two fixed header lines, a `<plist>` wrapper and the
element grammar `string | integer | true | false | array | dict`).  The
parser is fuel-indexed; `plistlib_loads` supplies fuel a priori sufficient
for its input. -/

/-- Inter-element whitespace skipping (expat character data between tags is
discarded by `plistlib._PlistParser` at each element start). -/
def skipWs (s : List Char) : List Char := s.dropWhile isXmlWs

/-- Match an exact leading token, returning the remainder. -/
def expects : List Char → List Char → Option (List Char)
  | [], s => some s
  | p :: ps, s =>
    match s with
    | [] => none
    | c :: cs => if p = c then expects ps cs else none

def digitVal (c : Char) : Option Nat :=
  if 48 ≤ c.toNat ∧ c.toNat ≤ 57 then some (c.toNat - 48) else none

def readDigits : List Char → Nat → Option Nat
  | [], acc => some acc
  | c :: rest, acc =>
    match digitVal c with
    | some d => readDigits rest (acc * 10 + d)
    | none => none

/-- Python `int(text)` on the texts `"%d"` produces: an optional minus sign
followed by decimal digits. -/
def parseIntText (s : List Char) : Option Int :=
  match s with
  | [] => none
  | c :: rest =>
    if c = '-' then
      if rest.isEmpty then none
      else (readDigits rest 0).map (fun m => -(m : Int))
    else (readDigits (c :: rest) 0).map (fun m => (m : Int))

mutual
/-- One plist element: dispatch on the opening tag; text content runs to the
next `<` (entity-escaped text contains none) and is entity-decoded. -/
def parseVal : Nat → List Char → Option (PlistValue × List Char)
  | 0, _ => none
  | fuel + 1, s0 =>
    let s := skipWs s0
    match expects tagStr s with
    | some r =>
        match expects tagStrClose (r.dropWhile (fun c => c ≠ '<')) with
        | some r2 => some (.str (String.mk (unesc (r.takeWhile (fun c => c ≠ '<')))), r2)
        | none => none
    | none =>
    match expects tagInt s with
    | some r =>
        match parseIntText (r.takeWhile (fun c => c ≠ '<')),
              expects tagIntClose (r.dropWhile (fun c => c ≠ '<')) with
        | some n, some r2 => some (.int n, r2)
        | _, _ => none
    | none =>
    match expects tagTrue s with
    | some r => some (.bool true, r)
    | none =>
    match expects tagFalse s with
    | some r => some (.bool false, r)
    | none =>
    match expects tagArrEmpty s with
    | some r => some (.arr [], r)
    | none =>
    match expects tagArr s with
    | some r =>
        match parseItems fuel r with
        | some (vs, r2) => some (.arr vs, r2)
        | none => none
    | none =>
    match expects tagDictEmpty s with
    | some r => some (.dict [], r)
    | none =>
    match expects tagDict s with
    | some r =>
        match parsePairs fuel r with
        | some (kvs, r2) => some (.dict kvs, r2)
        | none => none
    | none => none

/-- Array elements up to the closing `</array>`. -/
def parseItems : Nat → List Char → Option (List PlistValue × List Char)
  | 0, _ => none
  | fuel + 1, s0 =>
    let s := skipWs s0
    match expects tagArrClose s with
    | some r => some ([], r)
    | none =>
      match parseVal fuel s with
      | some (v, r1) =>
          match parseItems fuel r1 with
          | some (vs, r2) => some (v :: vs, r2)
          | none => none
      | none => none

/-- Dict `<key>`/value pairs up to the closing `</dict>`. -/
def parsePairs : Nat → List Char → Option (List (String × PlistValue) × List Char)
  | 0, _ => none
  | fuel + 1, s0 =>
    let s := skipWs s0
    match expects tagDictClose s with
    | some r => some ([], r)
    | none =>
      match expects tagKey s with
      | some r =>
          match expects tagKeyClose (r.dropWhile (fun c => c ≠ '<')) with
          | some r2 =>
              match parseVal fuel r2 with
              | some (v, r3) =>
                  match parsePairs fuel r3 with
                  | some (kvs, r4) =>
                      some ((String.mk (unesc (r.takeWhile (fun c => c ≠ '<'))), v) :: kvs, r4)
                  | none => none
              | none => none
          | none => none
      | none => none
end

/-- `plistlib.loads` on the documents `plistlib_dumps` emits: the header
lines and `<plist>` wrapper, one value, the closing `</plist>`. -/
def plistlib_loads (s : List Char) : Option PlistValue :=
  match expects (xmlDecl ++ docType ++ plistOpenTag) s with
  | some r =>
      match parseVal (r.length + 1) r with
      | some (v, rest) =>
          match expects plistCloseTag (skipWs rest) with
          | some _ => some v
          | none => none
      | none => none
  | none => none

/-! Proof-side companions: the serializer's successful output as a total
function (`pcore`, the element text without its leading indentation), the
well-formedness predicate under which serialization succeeds and round-trips
losslessly, fuel accounting, and the in-order key listing. -/

mutual
/-- The XML text `write_value lvl v` produces after its leading
indentation, including the trailing newline. -/
def pcore (lvl : Nat) : PlistValue → List Char
  | .str s => tagStr ++ escape1 s.data ++ tagStrClose ++ ['\n']
  | .int n => tagInt ++ intDec n ++ tagIntClose ++ ['\n']
  | .bool true => tagTrue ++ ['\n']
  | .bool false => tagFalse ++ ['\n']
  | .arr [] => tagArrEmpty ++ ['\n']
  | .arr (v :: vs) =>
      tagArr ++ ['\n'] ++ pprintList (lvl + 1) (v :: vs) ++ ind lvl ++ tagArrClose ++ ['\n']
  | .dict [] => tagDictEmpty ++ ['\n']
  | .dict (kv :: kvs) =>
      tagDict ++ ['\n'] ++ pprintPairs (lvl + 1) (kv :: kvs) ++ ind lvl ++ tagDictClose ++ ['\n']

def pprintList (lvl : Nat) : List PlistValue → List Char
  | [] => []
  | v :: vs => ind lvl ++ pcore lvl v ++ pprintList lvl vs

def pprintPairs (lvl : Nat) : List (String × PlistValue) → List Char
  | [] => []
  | (k, v) :: kvs =>
      ind lvl ++ tagKey ++ escape1 k.data ++ tagKeyClose ++ ['\n'] ++
      ind lvl ++ pcore lvl v ++ pprintPairs lvl kvs
end

/-- A string free of rejected control characters and of carriage returns:
serialization neither fails on it nor rewrites its line endings. -/
def cleanStr (s : String) : Bool :=
  s.data.all (fun c => !isPlistControl c && c ≠ '\r')

mutual
/-- Every string in the value is clean and every integer is within the
plist range. -/
def cleanV : PlistValue → Bool
  | .str s => cleanStr s
  | .int n => decide (-(2 ^ 63 : Int) ≤ n) && decide (n < 2 ^ 64)
  | .bool _ => true
  | .arr vs => cleanL vs
  | .dict kvs => cleanP kvs
def cleanL : List PlistValue → Bool
  | [] => true
  | v :: vs => cleanV v && cleanL vs
def cleanP : List (String × PlistValue) → Bool
  | [] => true
  | (k, v) :: kvs => cleanStr k && cleanV v && cleanP kvs
end

mutual
/-- Fuel sufficient for the parser to re-read the printed value. -/
def fuelNeed : PlistValue → Nat
  | .str _ => 1
  | .int _ => 1
  | .bool _ => 1
  | .arr vs => 1 + fuelNeedL vs
  | .dict kvs => 1 + fuelNeedP kvs
def fuelNeedL : List PlistValue → Nat
  | [] => 1
  | v :: vs => 1 + fuelNeed v + fuelNeedL vs
def fuelNeedP : List (String × PlistValue) → Nat
  | [] => 1
  | (_, v) :: kvs => 1 + fuelNeed v + fuelNeedP kvs
end

mutual
/-- All dictionary keys of the value, in document order. -/
def keysOf : PlistValue → List String
  | .str _ => []
  | .int _ => []
  | .bool _ => []
  | .arr vs => keysOfL vs
  | .dict kvs => keysOfP kvs
def keysOfL : List PlistValue → List String
  | [] => []
  | v :: vs => keysOf v ++ keysOfL vs
def keysOfP : List (String × PlistValue) → List String
  | [] => []
  | (k, v) :: kvs => k :: (keysOf v ++ keysOfP kvs)
end

/-- Key lookup on a decoded mapping (`none` on a non-dict). -/
def PlistValue.dGet (v : PlistValue) (key : String) : Option PlistValue :=
  match v with
  | .dict entries => pyLookup entries key
  | _ => none

/-- Index lookup on a decoded array (`none` on a non-array). -/
def PlistValue.aGet (v : PlistValue) (i : Nat) : Option PlistValue :=
  match v with
  | .arr items => items[i]?
  | _ => none

/-- `items[0].assets[0]` of a decoded manifest document. -/
def manifestAsset (doc : PlistValue) : Option PlistValue :=
  (((doc.dGet ("items")).bind (fun x => x.aGet 0)).bind
    (fun x => x.dGet ("assets"))).bind (fun x => x.aGet 0)

/-- `items[0].metadata` of a decoded manifest document. -/
def manifestMeta (doc : PlistValue) : Option PlistValue :=
  ((doc.dGet ("items")).bind (fun x => x.aGet 0)).bind (fun x => x.dGet ("metadata"))

/-- Modelled from the spec: an entry of the form `Payload/<component>.app/`
— the directory `Payload/`, then a single path component ending in `.app`
with a non-empty stem, then nothing or an arbitrary remainder.  Returns the
component's stem. -/
def specAppComponent (path : String) : Option String :=
  let cs := path.data
  if ("Payload/".data).isPrefixOf cs then
    let comp := (cs.drop 8).takeWhile (fun c => c ≠ '/')
    if 5 ≤ comp.length && (".app".data).isSuffixOf comp then
      some (String.mk (comp.take (comp.length - 4)))
    else none
  else none

/-! Basic lemmas about the text-level helpers. -/

theorem expects_append (p r : List Char) : expects p (p ++ r) = some r := by
  induction p with
  | nil => rfl
  | cons c cs ih => simpa [expects] using ih

theorem takeWhile_append_all (p : Char → Bool) (xs : List Char) (y : Char)
    (ys : List Char) (hx : ∀ c ∈ xs, p c = true) (hy : p y = false) :
    (xs ++ y :: ys).takeWhile p = xs := by
  induction xs with
  | nil => simp [List.takeWhile, hy]
  | cons a as ih =>
      have ha : p a = true := hx a (by simp)
      simp [List.takeWhile, ha, ih (fun c hc => hx c (by simp [hc]))]

theorem dropWhile_append_all (p : Char → Bool) (xs : List Char) (y : Char)
    (ys : List Char) (hx : ∀ c ∈ xs, p c = true) (hy : p y = false) :
    (xs ++ y :: ys).dropWhile p = y :: ys := by
  induction xs with
  | nil => simp [List.dropWhile, hy]
  | cons a as ih =>
      have ha : p a = true := hx a (by simp)
      simp [List.dropWhile, ha, ih (fun c hc => hx c (by simp [hc]))]

theorem skipWs_append_ws (ws s : List Char) (h : ∀ c ∈ ws, isXmlWs c = true) :
    skipWs (ws ++ s) = skipWs s := by
  induction ws with
  | nil => rfl
  | cons a as ih =>
      have ha := h a (by simp)
      simp only [skipWs, List.cons_append, List.dropWhile, ha]
      exact ih (fun c hc => h c (by simp [hc]))

theorem ind_isWs (lvl : Nat) : ∀ c ∈ ind lvl, isXmlWs c = true := by
  intro c hc
  have : c = '\t' := List.eq_of_mem_replicate hc
  subst this; rfl

theorem crlf_of_no_cr (s : List Char) (h : ∀ c ∈ s, c ≠ '\r') : crlf s = s := by
  induction s using crlf.induct with
  | case1 => rfl
  | case2 c =>
      have : c ≠ '\r' := h c (by simp)
      simp [crlf, this]
  | case3 rest ih =>
      exact absurd (h '\r' (by simp)) (by simp)
  | case4 c2 rest hc2 ih =>
      exact absurd (h '\r' (by simp)) (by simp)
  | case5 c1 c2 rest h1 ih =>
      have hm : ∀ c ∈ c2 :: rest, c ≠ '\r' := fun c hc => h c (by simp [hc])
      simp [crlf, h1, ih hm]

theorem escChar_no_lt (c : Char) : ∀ d ∈ escChar c, (d ≠ '<' : Bool) = true := by
  intro d hd
  by_cases h1 : c = '&'
  · simp [escChar, h1] at hd
    rcases hd with h | h | h | h | h <;> simp [h]
  · by_cases h2 : c = '<'
    · simp [escChar, h1, h2] at hd
      rcases hd with h | h | h | h <;> simp [h]
    · by_cases h3 : c = '>'
      · simp [escChar, h1, h2, h3] at hd
        rcases hd with h | h | h | h <;> simp [h]
      · simp [escChar, h1, h2, h3] at hd
        subst hd
        simpa using fun h => absurd h h2

theorem escape1_no_lt (s : List Char) : ∀ d ∈ escape1 s, (d ≠ '<' : Bool) = true := by
  intro d hd
  simp only [escape1, List.mem_flatMap] at hd
  obtain ⟨c, _, hc⟩ := hd
  exact escChar_no_lt c d hc

theorem unesc_cons_of_ne (c : Char) (xs : List Char) (h : c ≠ '&') :
    unesc (c :: xs) = c :: unesc xs := by
  rw [unesc.eq_def]
  split
  · rename_i heq; cases heq
  · rename_i heq; rw [List.cons.injEq] at heq; exact absurd heq.1.symm (Ne.symm h)
  · rename_i heq; rw [List.cons.injEq] at heq; exact absurd heq.1.symm (Ne.symm h)
  · rename_i heq; rw [List.cons.injEq] at heq; exact absurd heq.1.symm (Ne.symm h)
  · rename_i c' rest' hne1 hne2 hne3 heq
    rw [List.cons.injEq] at heq
    rw [heq.1, heq.2]

theorem unesc_flatMap_escChar (t : List Char) :
    unesc (t.flatMap escChar) = t := by
  induction t with
  | nil => rfl
  | cons c cs ih =>
      rw [List.flatMap_cons]
      by_cases h1 : c = '&'
      · subst h1
        show unesc ('&' :: 'a' :: 'm' :: 'p' :: ';' :: cs.flatMap escChar) = _
        rw [unesc, ih]
      · by_cases h2 : c = '<'
        · subst h2
          show unesc ('&' :: 'l' :: 't' :: ';' :: cs.flatMap escChar) = _
          rw [unesc, ih]
        · by_cases h3 : c = '>'
          · subst h3
            show unesc ('&' :: 'g' :: 't' :: ';' :: cs.flatMap escChar) = _
            rw [unesc, ih]
          · have hc : escChar c = [c] := by simp [escChar, h1, h2, h3]
            rw [hc, List.singleton_append, unesc_cons_of_ne c _ h1, ih]

theorem unesc_escape1 (s : List Char) : unesc (escape1 s) = crlf s :=
  unesc_flatMap_escChar (crlf s)

/-- A clean string is unchanged by line-ending conversion and accepted by
`plistlib._escape`. -/
theorem plistEscape_of_clean (s : String) (h : cleanStr s = true) :
    plistEscape s.data = .ok (escape1 s.data) ∧ unesc (escape1 s.data) = s.data := by
  have hc : ∀ c ∈ s.data, (!isPlistControl c && c ≠ '\r') = true := by
    simpa [cleanStr, List.all_eq_true] using h
  have hnoctrl : s.data.any isPlistControl = false := by
    rw [List.any_eq_false]
    intro c hcm
    have := hc c hcm
    simp at this
    simp [this.1]
  have hnocr : ∀ c ∈ s.data, c ≠ '\r' := by
    intro c hcm
    have := hc c hcm
    simp at this
    exact this.2
  refine ⟨by simp [plistEscape, hnoctrl], ?_⟩
  rw [unesc_escape1, crlf_of_no_cr _ hnocr]

/-! Decimal text lemmas: the parser-side `readDigits` inverts the
printer-side `natDec`/`intDec`. -/

theorem digitVal_ofNat (d : Nat) (hd : d < 10) :
    digitVal (Char.ofNat (48 + d)) = some d := by
  interval_cases d <;> rfl

theorem readDigits_append (xs ys : List Char) (acc : Nat) :
    readDigits (xs ++ ys) acc =
      match readDigits xs acc with
      | some acc2 => readDigits ys acc2
      | none => none := by
  induction xs generalizing acc with
  | nil => rfl
  | cons c cs ih =>
      rw [List.cons_append, readDigits, readDigits]
      cases digitVal c with
      | none => rfl
      | some d => exact ih (acc * 10 + d)

theorem readDigits_natDecAux (fuel n : Nat) (hf : n ≤ fuel) :
    readDigits (natDecAux fuel n) 0 = some n := by
  induction fuel generalizing n with
  | zero =>
      have : n = 0 := Nat.le_zero.mp hf
      subst this; rfl
  | succ f ih =>
      rw [natDecAux]
      by_cases hn : n < 10
      · simp only [if_pos hn, readDigits, digitVal_ofNat n hn, readDigits]
        simp
      · simp only [if_neg hn]
        rw [readDigits_append]
        have hdiv : n / 10 ≤ f := by omega
        rw [ih (n / 10) hdiv]
        have hm : n % 10 < 10 := Nat.mod_lt _ (by omega)
        simp only [readDigits, digitVal_ofNat (n % 10) hm, readDigits]
        congr 1
        omega

theorem readDigits_natDec (n : Nat) : readDigits (natDec n) 0 = some n :=
  readDigits_natDecAux n n (Nat.le_refl n)

theorem natDecAux_ne_nil (fuel n : Nat) : natDecAux fuel n ≠ [] := by
  cases fuel with
  | zero => simp [natDecAux]
  | succ f =>
      rw [natDecAux]
      by_cases hn : n < 10 <;> simp [hn]

theorem digitChar_ne (d : Nat) (hd : d < 10) :
    Char.ofNat (48 + d) ≠ '-' ∧ Char.ofNat (48 + d) ≠ '<' := by
  interval_cases d <;> exact ⟨by decide, by decide⟩

theorem natDecAux_mem_ne (fuel n : Nat) :
    ∀ c ∈ natDecAux fuel n, c ≠ '-' ∧ c ≠ '<' := by
  induction fuel generalizing n with
  | zero =>
      intro c hc
      simp only [natDecAux, List.mem_singleton] at hc
      subst hc
      exact digitChar_ne _ (Nat.mod_lt _ (by omega))
  | succ f ih =>
      intro c hc
      rw [natDecAux] at hc
      by_cases hn : n < 10
      · rw [if_pos hn] at hc
        simp only [List.mem_singleton] at hc
        subst hc
        exact digitChar_ne _ hn
      · rw [if_neg hn] at hc
        rcases List.mem_append.mp hc with h | h
        · exact ih (n / 10) c h
        · simp only [List.mem_singleton] at h
          subst h
          exact digitChar_ne _ (Nat.mod_lt _ (by omega))

theorem intDec_mem_ne_lt (n : Int) : ∀ c ∈ intDec n, (c ≠ '<' : Bool) = true := by
  intro c hc
  rw [intDec] at hc
  by_cases hn : n < 0
  · rw [if_pos hn] at hc
    rcases List.mem_cons.mp hc with h | h
    · subst h; decide
    · simpa using (natDecAux_mem_ne _ _ c h).2
  · rw [if_neg hn] at hc
    simpa using (natDecAux_mem_ne _ _ c hc).2

theorem parseIntText_natDec (m : Nat) : parseIntText (natDec m) = some (m : Int) := by
  have hne := natDecAux_ne_nil m m
  cases hh : natDec m with
  | nil => exact absurd hh hne
  | cons c cs =>
      have hcm : c ∈ natDec m := by rw [hh]; simp
      have hcne : c ≠ '-' := (natDecAux_mem_ne m m c hcm).1
      rw [parseIntText, if_neg hcne, ← hh, readDigits_natDec]
      rfl

theorem parseIntText_intDec (n : Int) : parseIntText (intDec n) = some n := by
  rw [intDec]
  by_cases hn : n < 0
  · rw [if_pos hn]
    rw [parseIntText, if_pos rfl]
    have hne := natDecAux_ne_nil n.natAbs n.natAbs
    have : (natDec n.natAbs).isEmpty = false := by
      cases hh : natDec n.natAbs with
      | nil => exact absurd hh hne
      | cons c cs => rfl
    rw [this]
    simp [readDigits_natDec]
    rw [abs_of_neg hn, neg_neg]
  · rw [if_neg hn]
    rw [parseIntText_natDec]
    congr 1
    omega

/-! Explicit character lists for the fixed tokens (kernel-checked by `rfl`),
used to let `simp` evaluate token dispatch in the parser lemmas. -/
theorem tagStr_chars : tagStr = ['<', 's', 't', 'r', 'i', 'n', 'g', '>'] := rfl
theorem tagStrClose_chars : tagStrClose = ['<', '/', 's', 't', 'r', 'i', 'n', 'g', '>'] := rfl
theorem tagInt_chars : tagInt = ['<', 'i', 'n', 't', 'e', 'g', 'e', 'r', '>'] := rfl
theorem tagIntClose_chars : tagIntClose = ['<', '/', 'i', 'n', 't', 'e', 'g', 'e', 'r', '>'] := rfl
theorem tagTrue_chars : tagTrue = ['<', 't', 'r', 'u', 'e', '/', '>'] := rfl
theorem tagFalse_chars : tagFalse = ['<', 'f', 'a', 'l', 's', 'e', '/', '>'] := rfl
theorem tagArr_chars : tagArr = ['<', 'a', 'r', 'r', 'a', 'y', '>'] := rfl
theorem tagArrEmpty_chars : tagArrEmpty = ['<', 'a', 'r', 'r', 'a', 'y', '/', '>'] := rfl
theorem tagArrClose_chars : tagArrClose = ['<', '/', 'a', 'r', 'r', 'a', 'y', '>'] := rfl
theorem tagDict_chars : tagDict = ['<', 'd', 'i', 'c', 't', '>'] := rfl
theorem tagDictEmpty_chars : tagDictEmpty = ['<', 'd', 'i', 'c', 't', '/', '>'] := rfl
theorem tagDictClose_chars : tagDictClose = ['<', '/', 'd', 'i', 'c', 't', '>'] := rfl
theorem tagKey_chars : tagKey = ['<', 'k', 'e', 'y', '>'] := rfl
theorem tagKeyClose_chars : tagKeyClose = ['<', '/', 'k', 'e', 'y', '>'] := rfl
theorem plistCloseTag_chars : plistCloseTag = ['<', '/', 'p', 'l', 'i', 's', 't', '>', '\n'] := rfl

/-- Every element's printed core starts with `<` followed by a character
other than `/` (so it can never be mistaken for a closing tag). -/
theorem pcore_head (lvl : Nat) (v : PlistValue) :
    ∃ c t, pcore lvl v = '<' :: c :: t ∧ c ≠ '/' := by
  cases v with
  | str s =>
      exact ⟨'s', "tring>".data ++ escape1 s.data ++ tagStrClose ++ ['\n'], rfl, by decide⟩
  | int n =>
      exact ⟨'i', "nteger>".data ++ intDec n ++ tagIntClose ++ ['\n'], rfl, by decide⟩
  | bool b =>
      cases b with
      | true => exact ⟨'t', "rue/>".data ++ ['\n'], rfl, by decide⟩
      | false => exact ⟨'f', "alse/>".data ++ ['\n'], rfl, by decide⟩
  | arr vs =>
      cases vs with
      | nil => exact ⟨'a', "rray/>".data ++ ['\n'], rfl, by decide⟩
      | cons v vs =>
          exact ⟨'a', "rray>".data ++ ['\n'] ++ pprintList (lvl + 1) (v :: vs) ++
            ind lvl ++ tagArrClose ++ ['\n'], rfl, by decide⟩
  | dict kvs =>
      cases kvs with
      | nil => exact ⟨'d', "ict/>".data ++ ['\n'], rfl, by decide⟩
      | cons kv kvs =>
          exact ⟨'d', "ict>".data ++ ['\n'] ++ pprintPairs (lvl + 1) (kv :: kvs) ++
            ind lvl ++ tagDictClose ++ ['\n'], rfl, by decide⟩

/-- Leading whitespace (and nothing more) is consumed before an element. -/
theorem skipWs_pcore (ws : List Char) (hws : ∀ c ∈ ws, isXmlWs c = true)
    (lvl : Nat) (v : PlistValue) (r : List Char) :
    skipWs (ws ++ (pcore lvl v ++ r)) = pcore lvl v ++ r := by
  obtain ⟨c, t, hshape, _⟩ := pcore_head lvl v
  rw [skipWs_append_ws ws _ hws, hshape]
  simp [skipWs, List.dropWhile, isXmlWs]

theorem exceptBind_ok {A B : Type} (a : A) (f : A → Except PyErr B) :
    (Bind.bind (Except.ok a) f) = f a := rfl

theorem exceptPure_def {A : Type} (a : A) :
    (pure a : Except PyErr A) = Except.ok a := rfl

mutual
/-- On clean values the serializer succeeds and produces exactly the
indentation plus printed core. -/
theorem write_value_ok : ∀ (v : PlistValue) (lvl : Nat), cleanV v = true →
    write_value v lvl = .ok (ind lvl ++ pcore lvl v)
  | .str s, lvl, h => by
      have hs : cleanStr s = true := by simpa [cleanV] using h
      have he := (plistEscape_of_clean s hs).1
      simp [write_value, he, pcore, exceptBind_ok, exceptPure_def]
  | .int n, lvl, h => by
      have hr : -(2 ^ 63 : Int) ≤ n ∧ n < 2 ^ 64 := by
        simpa [cleanV, Bool.and_eq_true, decide_eq_true_eq] using h
      rw [write_value, if_pos hr]
      simp [pcore, exceptPure_def]
  | .bool true, lvl, h => by simp [write_value, pcore, exceptPure_def]
  | .bool false, lvl, h => by simp [write_value, pcore, exceptPure_def]
  | .arr [], lvl, h => by simp [write_value, pcore, exceptPure_def]
  | .arr (v :: vs), lvl, h => by
      have hl : cleanL (v :: vs) = true := by simpa [cleanV] using h
      simp [write_value, write_list_ok (v :: vs) (lvl + 1) hl, pcore,
        exceptBind_ok, exceptPure_def]
  | .dict [], lvl, h => by simp [write_value, pcore, exceptPure_def]
  | .dict (kv :: kvs), lvl, h => by
      have hp : cleanP (kv :: kvs) = true := by simpa [cleanV] using h
      simp [write_value, write_pairs_ok (kv :: kvs) (lvl + 1) hp, pcore,
        exceptBind_ok, exceptPure_def]

theorem write_list_ok : ∀ (vs : List PlistValue) (lvl : Nat), cleanL vs = true →
    write_list vs lvl = .ok (pprintList lvl vs)
  | [], _, _ => by simp [write_list, pprintList, exceptPure_def]
  | v :: vs, lvl, h => by
      have h1 : cleanV v = true ∧ cleanL vs = true := by
        simpa [cleanL, Bool.and_eq_true] using h
      simp [write_list, write_value_ok v lvl h1.1, write_list_ok vs lvl h1.2,
        pprintList, exceptBind_ok, exceptPure_def]

theorem write_pairs_ok : ∀ (kvs : List (String × PlistValue)) (lvl : Nat),
    cleanP kvs = true → write_pairs kvs lvl = .ok (pprintPairs lvl kvs)
  | [], _, _ => by simp [write_pairs, pprintPairs, exceptPure_def]
  | (k, v) :: kvs, lvl, h => by
      have h1 : cleanStr k = true ∧ cleanV v = true ∧ cleanP kvs = true := by
        simpa [cleanP, Bool.and_eq_true, and_assoc] using h
      have he := (plistEscape_of_clean k h1.1).1
      simp [write_pairs, he, write_value_ok v lvl h1.2.1,
        write_pairs_ok kvs lvl h1.2.2, pprintPairs, exceptBind_ok, exceptPure_def]
end

theorem skipWs_to_lt (ws : List Char) (hws : ∀ c ∈ ws, isXmlWs c = true)
    (t : List Char) : skipWs (ws ++ '<' :: t) = '<' :: t := by
  rw [skipWs_append_ws ws _ hws]
  simp [skipWs, List.dropWhile, isXmlWs]

theorem wsList_cons_ind (lvl : Nat) :
    ∀ c ∈ '\n' :: ind lvl, isXmlWs c = true := by
  intro c hc
  rcases List.mem_cons.mp hc with h | h
  · subst h; rfl
  · exact ind_isWs lvl c h

theorem stringMk_data (s : String) : String.mk s.data = s := by
  cases s; rfl

/-- After `<`, a printed element core never continues with `/`, so a closing
tag test on it fails. -/
theorem expects_close_on_pcore (cl : List Char) (lvl : Nat) (v : PlistValue)
    (r : List Char) (hcl : ∃ t, cl = '<' :: '/' :: t) :
    expects cl (pcore lvl v ++ r) = none := by
  obtain ⟨t, rfl⟩ := hcl
  obtain ⟨c, u, hshape, hc⟩ := pcore_head lvl v
  rw [hshape]
  show expects ('<' :: '/' :: t) ('<' :: c :: (u ++ r)) = none
  simp only [expects]
  simp [Ne.symm hc]

theorem expects_dictClose_key (t : List Char) :
    expects tagDictClose ('<' :: 'k' :: t) = none := by
  rw [tagDictClose_chars]; simp [expects]

theorem expects_key_open (t : List Char) :
    expects tagKey ('<' :: 'k' :: 'e' :: 'y' :: '>' :: t) = some t := by
  rw [tagKey_chars]; simp [expects]

theorem expects_key_close (t : List Char) :
    expects tagKeyClose ('<' :: '/' :: 'k' :: 'e' :: 'y' :: '>' :: t) = some t := by
  rw [tagKeyClose_chars]; simp [expects]

mutual
theorem parseVal_pcore : ∀ (v : PlistValue) (fuel lvl : Nat) (ws r : List Char),
    cleanV v = true → fuelNeed v < fuel → (∀ c ∈ ws, isXmlWs c = true) →
    parseVal fuel (ws ++ (pcore lvl v ++ r)) = some (v, '\n' :: r)
  | .str s => by
      intro fuel lvl ws r hc hf hws
      cases fuel with
      | zero => simp [fuelNeed] at hf
      | succ f =>
          have hs : cleanStr s = true := by simpa [cleanV] using hc
          simp only [parseVal]
          simp only [pcore, tagStr_chars, List.append_assoc, List.cons_append,
            List.singleton_append, List.nil_append]
          rw [skipWs_to_lt ws hws]
          simp only [expects, if_true, reduceIte]
          simp only [tagStrClose_chars, List.cons_append]
          rw [dropWhile_append_all _ _ _ _ (escape1_no_lt s.data) (by decide),
              takeWhile_append_all _ _ _ _ (escape1_no_lt s.data) (by decide)]
          simp only [reduceIte]
          rw [(plistEscape_of_clean s hs).2, stringMk_data]
          simp
  | .int n => by
      intro fuel lvl ws r hc hf hws
      cases fuel with
      | zero => simp [fuelNeed] at hf
      | succ f =>
          simp only [parseVal]
          simp only [pcore, tagStr_chars, tagInt_chars, List.append_assoc,
            List.cons_append, List.singleton_append, List.nil_append]
          rw [skipWs_to_lt ws hws]
          simp only [expects, if_true, reduceIte]
          simp only [tagIntClose_chars, List.cons_append]
          rw [dropWhile_append_all _ _ _ _ (intDec_mem_ne_lt n) (by decide),
              takeWhile_append_all _ _ _ _ (intDec_mem_ne_lt n) (by decide)]
          simp only [reduceIte, parseIntText_intDec]
          simp
  | .bool true => by
      intro fuel lvl ws r hc hf hws
      cases fuel with
      | zero => simp [fuelNeed] at hf
      | succ f =>
          simp only [parseVal]
          simp only [pcore, tagStr_chars, tagInt_chars, tagTrue_chars,
            List.append_assoc, List.cons_append, List.singleton_append, List.nil_append]
          rw [skipWs_to_lt ws hws]
          simp [expects, reduceIte]
  | .bool false => by
      intro fuel lvl ws r hc hf hws
      cases fuel with
      | zero => simp [fuelNeed] at hf
      | succ f =>
          simp only [parseVal]
          simp only [pcore, tagStr_chars, tagInt_chars, tagTrue_chars, tagFalse_chars,
            List.append_assoc, List.cons_append, List.singleton_append, List.nil_append]
          rw [skipWs_to_lt ws hws]
          simp [expects, reduceIte]
  | .arr [] => by
      intro fuel lvl ws r hc hf hws
      cases fuel with
      | zero => simp [fuelNeed, fuelNeedL] at hf
      | succ f =>
          simp only [parseVal]
          simp only [pcore, tagStr_chars, tagInt_chars, tagTrue_chars, tagFalse_chars,
            tagArrEmpty_chars, List.append_assoc, List.cons_append,
            List.singleton_append, List.nil_append]
          rw [skipWs_to_lt ws hws]
          simp [expects, reduceIte]
  | .arr (v :: vs) => by
      intro fuel lvl ws r hc hf hws
      cases fuel with
      | zero => simp [fuelNeed, fuelNeedL] at hf
      | succ f =>
          have hcl : cleanL (v :: vs) = true := by simpa [cleanV] using hc
          have hfl : fuelNeedL (v :: vs) < f := by
            simp only [fuelNeed] at hf; omega
          simp only [parseVal]
          simp only [pcore, tagStr_chars, tagInt_chars, tagTrue_chars, tagFalse_chars,
            tagArrEmpty_chars, tagArr_chars, List.append_assoc, List.cons_append,
            List.singleton_append, List.nil_append]
          rw [skipWs_to_lt ws hws]
          simp only [expects]
          simp only [reduceCtorEq, reduceIte, Char.reduceEq]
          rw [parseItems_pprint (v :: vs) f lvl r hcl hfl]
  | .dict [] => by
      intro fuel lvl ws r hc hf hws
      cases fuel with
      | zero => simp [fuelNeed, fuelNeedP] at hf
      | succ f =>
          simp only [parseVal]
          simp only [pcore, tagStr_chars, tagInt_chars, tagTrue_chars, tagFalse_chars,
            tagArrEmpty_chars, tagArr_chars, tagDictEmpty_chars, List.append_assoc,
            List.cons_append, List.singleton_append, List.nil_append]
          rw [skipWs_to_lt ws hws]
          simp [expects, reduceIte]
  | .dict (kv :: kvs) => by
      intro fuel lvl ws r hc hf hws
      cases fuel with
      | zero => simp [fuelNeed, fuelNeedP] at hf
      | succ f =>
          have hcp : cleanP (kv :: kvs) = true := by simpa [cleanV] using hc
          have hfp : fuelNeedP (kv :: kvs) < f := by
            simp only [fuelNeed] at hf; omega
          simp only [parseVal]
          simp only [pcore, tagStr_chars, tagInt_chars, tagTrue_chars, tagFalse_chars,
            tagArrEmpty_chars, tagArr_chars, tagDictEmpty_chars, tagDict_chars,
            List.append_assoc, List.cons_append, List.singleton_append, List.nil_append]
          rw [skipWs_to_lt ws hws]
          simp only [expects]
          simp only [reduceCtorEq, reduceIte, Char.reduceEq]
          rw [parsePairs_pprint (kv :: kvs) f lvl r hcp hfp]

theorem parseItems_pprint : ∀ (vs : List PlistValue) (fuel lvl : Nat) (r : List Char),
    cleanL vs = true → fuelNeedL vs < fuel →
    parseItems fuel
      ('\n' :: (pprintList (lvl + 1) vs ++ (ind lvl ++ (tagArrClose ++ '\n' :: r)))) =
      some (vs, '\n' :: r)
  | [] => by
      intro fuel lvl r hc hf
      cases fuel with
      | zero => simp [fuelNeedL] at hf
      | succ f =>
          simp only [parseItems]
          simp only [pprintList, tagArrClose_chars, List.append_assoc,
            List.cons_append, List.singleton_append, List.nil_append]
          rw [← List.cons_append]
          rw [skipWs_to_lt _ (wsList_cons_ind lvl)]
          simp [expects, reduceIte]
  | v :: vs => by
      intro fuel lvl r hc hf
      cases fuel with
      | zero => simp [fuelNeedL] at hf
      | succ f =>
          have h1 : cleanV v = true ∧ cleanL vs = true := by
            simpa [cleanL, Bool.and_eq_true] using hc
          have hf1 : fuelNeed v < f ∧ fuelNeedL vs < f := by
            simp only [fuelNeedL] at hf; omega
          simp only [parseItems]
          simp only [pprintList, List.append_assoc]
          rw [← List.cons_append]
          rw [skipWs_pcore ('\n' :: ind (lvl + 1)) (wsList_cons_ind (lvl + 1)) (lvl + 1) v _]
          rw [expects_close_on_pcore tagArrClose (lvl + 1) v _ ⟨_, tagArrClose_chars⟩]
          have hv := parseVal_pcore v f (lvl + 1) []
            (pprintList (lvl + 1) vs ++ (ind lvl ++ (tagArrClose ++ '\n' :: r)))
            h1.1 hf1.1 (by simp)
          simp only [List.nil_append] at hv
          rw [hv]
          have hi := parseItems_pprint vs f lvl r h1.2 hf1.2
          simp [hi]

theorem parsePairs_pprint : ∀ (kvs : List (String × PlistValue)) (fuel lvl : Nat)
    (r : List Char), cleanP kvs = true → fuelNeedP kvs < fuel →
    parsePairs fuel
      ('\n' :: (pprintPairs (lvl + 1) kvs ++ (ind lvl ++ (tagDictClose ++ '\n' :: r)))) =
      some (kvs, '\n' :: r)
  | [] => by
      intro fuel lvl r hc hf
      cases fuel with
      | zero => simp [fuelNeedP] at hf
      | succ f =>
          simp only [parsePairs]
          simp only [pprintPairs, tagDictClose_chars, List.append_assoc,
            List.cons_append, List.singleton_append, List.nil_append]
          rw [← List.cons_append]
          rw [skipWs_to_lt _ (wsList_cons_ind lvl)]
          simp [expects, reduceIte]
  | (k, v) :: kvs => by
      intro fuel lvl r hc hf
      cases fuel with
      | zero => simp [fuelNeedP] at hf
      | succ f =>
          have h1 : cleanStr k = true ∧ cleanV v = true ∧ cleanP kvs = true := by
            simpa [cleanP, Bool.and_eq_true, and_assoc] using hc
          have hf1 : fuelNeed v < f ∧ fuelNeedP kvs < f := by
            simp only [fuelNeedP] at hf; omega
          simp only [parsePairs]
          simp only [pprintPairs, tagKey_chars, List.append_assoc, List.cons_append,
            List.singleton_append, List.nil_append]
          rw [← List.cons_append]
          rw [skipWs_to_lt _ (wsList_cons_ind (lvl + 1))]
          rw [expects_dictClose_key]
          rw [← tagKey_chars, expects_key_open]
          simp only [tagKeyClose_chars, List.cons_append]
          rw [dropWhile_append_all _ _ _ _ (escape1_no_lt k.data) (by decide),
              takeWhile_append_all _ _ _ _ (escape1_no_lt k.data) (by decide)]
          rw [← tagKeyClose_chars, expects_key_close]
          have hv := parseVal_pcore v f (lvl + 1)
            ('\n' :: ind (lvl + 1))
            (pprintPairs (lvl + 1) kvs ++ (ind lvl ++ (tagDictClose ++ '\n' :: r)))
            h1.2.1 hf1.1 (wsList_cons_ind (lvl + 1))
          have hi := parsePairs_pprint kvs f lvl r h1.2.2 hf1.2
          simp only [List.cons_append] at hv
          simp only [List.nil_append]
          simp [hv, hi, (plistEscape_of_clean k h1.1).2, stringMk_data]
end

mutual
/-- The printed core is at least as long as the fuel the parser needs. -/
theorem fuelNeed_le_pcore : ∀ (v : PlistValue) (lvl : Nat),
    fuelNeed v + 1 ≤ (pcore lvl v).length
  | .str s, lvl => by simp [pcore, fuelNeed, tagStr_chars, tagStrClose_chars]
  | .int n, lvl => by
      simp [pcore, fuelNeed, tagInt_chars, tagIntClose_chars]
  | .bool true, lvl => by simp [pcore, fuelNeed, tagTrue_chars]
  | .bool false, lvl => by simp [pcore, fuelNeed, tagFalse_chars]
  | .arr [], lvl => by simp [pcore, fuelNeed, fuelNeedL, tagArrEmpty_chars]
  | .arr (v :: vs), lvl => by
      have h := fuelNeedL_le_pprintList (v :: vs) (lvl + 1)
      simp only [pcore, fuelNeed, List.length_append, List.length_cons,
        tagArr_chars, tagArrClose_chars] at *
      omega
  | .dict [], lvl => by simp [pcore, fuelNeed, fuelNeedP, tagDictEmpty_chars]
  | .dict (kv :: kvs), lvl => by
      have h := fuelNeedP_le_pprintPairs (kv :: kvs) (lvl + 1)
      simp only [pcore, fuelNeed, List.length_append, List.length_cons,
        tagDict_chars, tagDictClose_chars] at *
      omega

theorem fuelNeedL_le_pprintList : ∀ (vs : List PlistValue) (lvl : Nat),
    fuelNeedL vs ≤ (pprintList lvl vs).length + 1
  | [], lvl => by simp [fuelNeedL, pprintList]
  | v :: vs, lvl => by
      have h1 := fuelNeed_le_pcore v lvl
      have h2 := fuelNeedL_le_pprintList vs lvl
      simp only [fuelNeedL, pprintList, List.length_append] at *
      omega

theorem fuelNeedP_le_pprintPairs : ∀ (kvs : List (String × PlistValue)) (lvl : Nat),
    fuelNeedP kvs ≤ (pprintPairs lvl kvs).length + 1
  | [], lvl => by simp [fuelNeedP, pprintPairs]
  | (k, v) :: kvs, lvl => by
      have h1 := fuelNeed_le_pcore v lvl
      have h2 := fuelNeedP_le_pprintPairs kvs lvl
      simp only [fuelNeedP, pprintPairs, List.length_append] at *
      omega
end

/-- The serializer's output on a clean value. -/
theorem plistlib_dumps_of_clean (v : PlistValue) (hc : cleanV v = true) :
    plistlib_dumps v =
      .ok (xmlDecl ++ docType ++ plistOpenTag ++ (pcore 0 v ++ plistCloseTag)) := by
  rw [plistlib_dumps]
  rw [write_value_ok v 0 hc]
  simp [ind, exceptBind_ok, exceptPure_def, List.append_assoc]

/-- Round trip: decoding the serializer's output on a clean value returns
the value unchanged. -/
theorem plistlib_loads_dumps (v : PlistValue) (hc : cleanV v = true) (b : List Char)
    (hb : plistlib_dumps v = .ok b) : plistlib_loads b = some v := by
  rw [plistlib_dumps_of_clean v hc] at hb
  injection hb with hb
  subst hb
  rw [plistlib_loads]
  rw [show xmlDecl ++ docType ++ plistOpenTag ++ (pcore 0 v ++ plistCloseTag) =
    (xmlDecl ++ docType ++ plistOpenTag) ++ (pcore 0 v ++ plistCloseTag) from by
      simp [List.append_assoc]]
  rw [expects_append]
  have hfuel : fuelNeed v < (pcore 0 v ++ plistCloseTag).length + 1 := by
    have h1 := fuelNeed_le_pcore v 0
    simp only [List.length_append]
    omega
  have hv := parseVal_pcore v ((pcore 0 v ++ plistCloseTag).length + 1) 0 []
    plistCloseTag hc hfuel (by simp)
  simp only [List.nil_append] at hv
  simp only []
  rw [hv]
  simp [plistCloseTag_chars, skipWs, List.dropWhile, isXmlWs, expects]

/-! Lemmas about the app-name pattern and the archive scan. -/

theorem isPrefixOf_self_append (l x : List Char) : l.isPrefixOf (l ++ x) = true := by
  induction l with
  | nil => simp [List.isPrefixOf]
  | cons a as ih => simp [List.isPrefixOf, ih]

theorem payload_drop8 (x : List Char) : ("Payload/".data ++ x).drop 8 = x := rfl

/-- Group 1 of the pattern on an entry of the literal form
`Payload/<w>.app<tail>` with a non-empty word-character component `w`: the
greedy `\w+` stops exactly at the dot, and `.app` matches literally, so the
group is `w` — whatever `tail` is. -/
theorem group1_spec_form (w tail : String) (hne : w.data ≠ [])
    (hword : ∀ c ∈ w.data, isWordChar c = true) :
    RE_PLIST_PATH_group1 ("Payload/" ++ w ++ ".app" ++ tail) = some w := by
  simp only [RE_PLIST_PATH_group1]
  have hdata : ("Payload/" ++ w ++ ".app" ++ tail).data =
      "Payload/".data ++ (w.data ++ ('.' :: 'a' :: 'p' :: 'p' :: tail.data)) := by
    simp [String.data_append]
  rw [hdata]
  rw [if_pos (by rw [isPrefixOf_self_append])]
  rw [payload_drop8]
  rw [takeWhile_append_all isWordChar w.data '.' _ hword (by decide)]
  cases hw : w.data with
  | nil => exact absurd hw hne
  | cons c cs =>
      rw [List.length_cons, tryFrom]
      rw [show (cs.length + 1) = (c :: cs).length from by simp, ← hw, List.drop_left]
      rw [show dotAppAt ('.' :: 'a' :: 'p' :: 'p' :: tail.data) = true from rfl]
      rw [if_pos rfl]
      simp [List.take_left, stringMk_data]

/-- When no entry matches the pattern, the scan returns `""`. -/
theorem parse_app_name_of_no_match (z : ZipArchive)
    (h : ∀ e ∈ z.namelist, RE_PLIST_PATH_group1 e = none) :
    _parse_app_name z = "" := by
  rw [_parse_app_name]
  rw [List.findSome?_eq_none_iff.mpr h]

theorem findSome?_group1_first (pre : List String) (e : String) (post : List String)
    (w : String) (hpre : ∀ x ∈ pre, RE_PLIST_PATH_group1 x = none)
    (he : RE_PLIST_PATH_group1 e = some w) :
    List.findSome? RE_PLIST_PATH_group1 (pre ++ e :: post) = some w := by
  induction pre with
  | nil => rw [List.nil_append, List.findSome?_cons, he]
  | cons a as ih =>
      rw [List.cons_append, List.findSome?_cons, hpre a (by simp)]
      exact ih (fun x hx => hpre x (by simp [hx]))

/-- The scan returns the first match's group. -/
theorem parse_app_name_first_match (z : ZipArchive) (pre : List String)
    (e : String) (post : List String) (w : String)
    (hsplit : z.namelist = pre ++ e :: post)
    (hpre : ∀ x ∈ pre, RE_PLIST_PATH_group1 x = none)
    (he : RE_PLIST_PATH_group1 e = some w) :
    _parse_app_name z = w := by
  rw [_parse_app_name, hsplit, findSome?_group1_first pre e post w hpre he]

set_option maxRecDepth 10000

/-! Claims. -/

theorem exceptBind_err {A B : Type} (e : PyErr) (f : A → Except PyErr B) :
    (Bind.bind (Except.error e) f) = Except.error e := rfl

/-! Claim C3: name extraction. -/

/-- An archive whose only entry has the spec's form `Payload/<component>.app/…`
with a component (`My-App`) containing a non-word character. -/
def c3Archive : ZipArchive :=
  ⟨[("Payload/My-App.app/Info.plist",
     some (.dict [("CFBundleIdentifier", .str ("com.example.myapp")),
                  ("CFBundleShortVersionString", .str ("1.0"))]))]⟩

/-- Claim C3, counterexample: the archive `c3Archive` contains an entry of the
form `Payload/<component>.app/<remainder>` (component `My-App`), yet `open`
does not return an AppBundle named `My-App` — construction fails outright
with the no-app-name error, because `\w+` cannot match the hyphen. -/
theorem c3_counterexample :
    specAppComponent ("Payload/My-App.app/Info.plist") = some ("My-App") ∧
    c3Archive.namelist = [("Payload/My-App.app/Info.plist")] ∧
    Manifest.init c3Archive = .error .runtimeNoAppName :=
  ⟨rfl, rfl, rfl⟩

/-- Claim C3 (amended): for an archive whose entry list contains an entry
`Payload/<component>.app<remainder>` whose component is non-empty and
consists only of word characters, and where no earlier entry matches the
pattern `Payload/(\w+).app/?(.*)`, construction derives exactly that
component as the app name (and succeeds when that component's `Info.plist`
entry decodes). -/
theorem C3_app_name (z : ZipArchive) (pre post : List String) (w rest : String)
    (info : PlistValue)
    (hsplit : z.namelist = pre ++ ("Payload/" ++ w ++ ".app" ++ rest) :: post)
    (hpre : ∀ x ∈ pre, RE_PLIST_PATH_group1 x = none)
    (hne : w.data ≠ []) (hword : ∀ c ∈ w.data, isWordChar c = true)
    (hinfo : z.openEntry (infoPlistPath w) = some (some info)) :
    Manifest.init z = .ok ⟨w, info⟩ := by
  have hname : _parse_app_name z = w :=
    parse_app_name_first_match z pre _ post w hsplit hpre
      (group1_spec_form w rest hne hword)
  have hw : w ≠ "" := fun h => hne (by rw [h])
  simp only [Manifest.init, hname]
  rw [if_pos hw, hinfo]

def c3wInfo : PlistValue :=
  .dict [("CFBundleIdentifier", .str ("com.example.demo")),
         ("CFBundleShortVersionString", .str ("2.0"))]

def c3wArchive : ZipArchive :=
  ⟨[("README", none), ("Payload/Demo.app/Info.plist", some c3wInfo)]⟩

/-- Claim C3, witness: concrete instantiation of `C3_app_name`. -/
theorem C3_app_name_witness :
    c3wArchive.namelist = ["README"] ++ ("Payload/" ++ "Demo" ++ ".app" ++ "/Info.plist") :: [] ∧
    Manifest.init c3wArchive = .ok ⟨"Demo", c3wInfo⟩ :=
  ⟨rfl, C3_app_name c3wArchive ["README"] [] ("Demo") ("/Info.plist") c3wInfo rfl
    (by intro x hx; simp at hx; subst hx; rfl)
    (by decide) (by decide) rfl⟩

/-! Claim C4: archives without an application directory. -/

/-- An archive with no entry under any `Payload/<name>.app/` directory, but
with an entry the regex nevertheless matches (`Payload/Barxapp/…`, group
`Bar`). -/
def c4Archive : ZipArchive := ⟨[("Payload/Barxapp/Stuff.txt", none)]⟩

/-- Claim C4, counterexample: `c4Archive` opens as a zip and contains no
entry under a `Payload/<name>.app/` directory, yet construction fails with a
missing-entry error (spec kind `MetadataUnreadable`), not
`InvalidApplicationArchive`. -/
theorem c4_counterexample :
    (c4Archive.namelist.all (fun e => (specAppComponent e).isNone)) = true ∧
    Manifest.init c4Archive = .error (.keyErrorEntry ("Payload/Bar.app/Info.plist")) ∧
    specKind (.keyErrorEntry ("Payload/Bar.app/Info.plist")) ≠ .invalidApplicationArchive :=
  ⟨rfl, rfl, by decide⟩

/-- Claim C4 (amended): for every archive none of whose entries matches the
pattern `Payload/(\w+).app/?(.*)`, construction fails with the
`RuntimeError` raise, whose spec kind is `InvalidApplicationArchive` — and
with no other error kind. -/
theorem C4_no_match_error (z : ZipArchive)
    (h : ∀ e ∈ z.namelist, RE_PLIST_PATH_group1 e = none) :
    Manifest.init z = .error .runtimeNoAppName ∧
    specKind .runtimeNoAppName = .invalidApplicationArchive := by
  have hname := parse_app_name_of_no_match z h
  refine ⟨?_, rfl⟩
  simp only [Manifest.init, hname]
  simp

def c4wArchive : ZipArchive := ⟨[("foo.txt", none), ("bar/baz.png", none)]⟩

/-- Claim C4, witness: concrete instantiation of `C4_no_match_error`. -/
theorem C4_no_match_error_witness :
    (∀ e ∈ c4wArchive.namelist, RE_PLIST_PATH_group1 e = none) ∧
    Manifest.init c4wArchive = .error .runtimeNoAppName :=
  have h : ∀ e ∈ c4wArchive.namelist, RE_PLIST_PATH_group1 e = none := by
    intro e he
    simp [c4wArchive, ZipArchive.namelist] at he
    rcases he with h | h <;> (subst h; rfl)
  ⟨h, (C4_no_match_error c4wArchive h).1⟩

/-! Claim C6: unreadable metadata. -/

/-- Claim C6: when an app directory name is detected but the entry
`Payload/<name>.app/Info.plist` is absent (`KeyError` from `ZipFile.open`)
or does not decode as a property list (`plistlib.load` failure),
construction fails with an error of spec kind `MetadataUnreadable`. -/
theorem C6_metadata_unreadable (z : ZipArchive) (n : String)
    (hn : _parse_app_name z = n) (hne : n ≠ "")
    (h : z.openEntry (infoPlistPath n) = none ∨
         z.openEntry (infoPlistPath n) = some none) :
    ∃ e, Manifest.init z = .error e ∧ specKind e = .metadataUnreadable := by
  rcases h with h | h
  · refine ⟨.keyErrorEntry (infoPlistPath n), ?_, rfl⟩
    simp only [Manifest.init, hn]
    rw [if_pos hne, h]
  · refine ⟨.plistLoadError, ?_, rfl⟩
    simp only [Manifest.init, hn]
    rw [if_pos hne, h]

def c6wArchive : ZipArchive := ⟨[("Payload/Weather.app/", none)]⟩

/-- Claim C6, witness: concrete instantiation of `C6_metadata_unreadable`
(the `.app` directory entry exists but `Info.plist` is absent). -/
theorem C6_metadata_unreadable_witness :
    _parse_app_name c6wArchive = "Weather" ∧
    c6wArchive.openEntry (infoPlistPath ("Weather")) = none ∧
    ∃ e, Manifest.init c6wArchive = .error e ∧ specKind e = .metadataUnreadable :=
  ⟨rfl, rfl, C6_metadata_unreadable c6wArchive ("Weather") rfl (by decide) (Or.inl rfl)⟩

/-! Claim C8: the archive handle on error paths. -/

def c8NoApp : ZipArchive := ⟨[("README.md", none)]⟩
def c8BadPlist : ZipArchive := ⟨[("Payload/App.app/Info.plist", none)]⟩
def c8Good : ZipArchive := ⟨[("Payload/App.app/Info.plist", some (.dict []))]⟩

/-- Claim C8: evaluation at the failing inputs.  On the error paths — no
application directory detected (`c8NoApp`) and metadata decode failure
(`c8BadPlist`) — the exception escapes `Manifest.__init__`, the `with`
statement never enters, `__exit__` never runs, and the zip handle is left
open (`false`); only the successful conversion closes it. -/
theorem C8_handle_leak :
    withManifest c8NoApp (fun m => m.appname) = (.error .runtimeNoAppName, false) ∧
    withManifest c8BadPlist (fun m => m.appname) = (.error .plistLoadError, false) ∧
    withManifest c8Good (fun m => m.appname) = (.ok ("App"), true) :=
  ⟨rfl, rfl, rfl⟩

/-! Claim C10: the unescaped dot in the pattern. -/

def c10Archive : ZipArchive := ⟨[("Payload/Fooxapp/Info.plist", some (.dict []))]⟩

/-- Claim C10: an archive with no `.app` directory at all
(`Payload/Fooxapp/Info.plist` is its only entry) on which name detection
nevertheless succeeds with the strict-prefix name `Foo` (the unescaped dot
matches `x`), and construction then fails opening
`Payload/Foo.app/Info.plist` — a missing-entry error of spec kind
`MetadataUnreadable` — rather than with the no-application error. -/
theorem C10_dot_matches_any :
    (c10Archive.namelist.all (fun e => (specAppComponent e).isNone)) = true ∧
    _parse_app_name c10Archive = "Foo" ∧
    ("Foo".data).isPrefixOf ("Fooxapp".data) = true ∧
    Manifest.init c10Archive = .error (.keyErrorEntry ("Payload/Foo.app/Info.plist")) ∧
    specKind (.keyErrorEntry ("Payload/Foo.app/Info.plist")) = .metadataUnreadable ∧
    specKind (.keyErrorEntry ("Payload/Foo.app/Info.plist")) ≠ .invalidApplicationArchive :=
  ⟨rfl, rfl, rfl, rfl, rfl, by decide⟩

/-! Claim C5: missing metadata fields. -/

/-- Claim C5: when the metadata mapping lacks `CFBundleIdentifier` — or has
it but lacks `CFBundleShortVersionString` — `create` fails with the
`KeyError` naming the absent key (spec kind `MissingMetadataField` for that
key), and nothing is written to the caller-supplied file handle.  The
`CFBundleIdentifier` lookup is evaluated first inside the dict literal, so
it is the key named when both are absent. -/
theorem C5_missing_field (m : Manifest) (host : String) (secure hasF : Bool)
    (d : List (String × PlistValue)) (hd : m.info = .dict d)
    (h : pyLookup d ("CFBundleIdentifier") = none ∨
         (pyLookup d ("CFBundleIdentifier") ≠ none ∧
          pyLookup d ("CFBundleShortVersionString") = none)) :
    ∃ k, Manifest.createRun m host secure hasF = (.error (.keyErrorField k), []) ∧
      specKind (.keyErrorField k) = .missingMetadataField k ∧
      pyLookup d k = none := by
  rcases h with h | ⟨h1, h2⟩
  · refine ⟨"CFBundleIdentifier", ?_, rfl, h⟩
    rw [Manifest.createRun]
    simp only [Manifest.create, pyIndex, hd, h, exceptBind_err]
  · cases hv : pyLookup d ("CFBundleIdentifier") with
    | none => exact absurd hv h1
    | some v =>
        refine ⟨"CFBundleShortVersionString", ?_, rfl, h2⟩
        rw [Manifest.createRun]
        simp only [Manifest.create, pyIndex, hd, hv, h2, exceptBind_ok, exceptBind_err]

def c5wManifest : Manifest := ⟨"W5", .dict [("SomethingElse", .str ("x"))]⟩

/-- Claim C5, witness: concrete instantiation of `C5_missing_field`. -/
theorem C5_missing_field_witness :
    pyLookup [("SomethingElse", PlistValue.str ("x"))] ("CFBundleIdentifier") = none ∧
    ∃ k, Manifest.createRun c5wManifest ("https://h/a.ipa") true true =
        (.error (.keyErrorField k), []) ∧
      specKind (.keyErrorField k) = .missingMetadataField k ∧
      pyLookup [("SomethingElse", PlistValue.str ("x"))] k = none :=
  ⟨rfl, C5_missing_field c5wManifest ("https://h/a.ipa") true true
    [("SomethingElse", PlistValue.str ("x"))] rfl (Or.inl rfl)⟩

/-! Claim C7: determinism of `create`. -/

/-- Claim C7: `create` is deterministic — two calls on AppBundles with the
same name and the same metadata, with the same host URL, return identical
serialized bytes (the embedding is a pure function of these inputs; no
timestamps or nondeterministic ordering enter the output). -/
theorem C7_deterministic (m1 m2 : Manifest) (host : String) (secure : Bool)
    (hname : m1.appname = m2.appname) (hinfo : m1.info = m2.info) :
    Manifest.create m1 host secure = Manifest.create m2 host secure := by
  obtain ⟨n1, i1⟩ := m1
  obtain ⟨n2, i2⟩ := m2
  simp only at hname hinfo
  subst hname
  subst hinfo
  rfl

def c7wManifest : Manifest :=
  ⟨"W7", .dict [("CFBundleIdentifier", .str ("com.w7")),
                ("CFBundleShortVersionString", .str ("7.0"))]⟩

/-- Claim C7, witness: concrete instantiation of `C7_deterministic`. -/
theorem C7_deterministic_witness :
    c7wManifest.appname = c7wManifest.appname ∧
    Manifest.create c7wManifest ("https://h/w7.ipa") true =
      Manifest.create c7wManifest ("https://h/w7.ipa") true :=
  ⟨rfl, C7_deterministic c7wManifest c7wManifest ("https://h/w7.ipa") true rfl rfl⟩

/-! Claim C9: the output depends only on four inputs; `secure` is unused. -/

/-- Claim C9: the bytes produced by `create` depend only on the bundle name,
the metadata lookups at `CFBundleIdentifier` and
`CFBundleShortVersionString`, and the host URL: two calls agreeing on these
return identical results even when other metadata keys differ and the
`secure` arguments differ (the body of `create` never reads `secure`). -/
theorem C9_depends_only_on (m1 m2 : Manifest) (host : String) (s1 s2 : Bool)
    (hname : m1.appname = m2.appname)
    (hbid : pyIndex m1.info ("CFBundleIdentifier") =
            pyIndex m2.info ("CFBundleIdentifier"))
    (hbver : pyIndex m1.info ("CFBundleShortVersionString") =
             pyIndex m2.info ("CFBundleShortVersionString")) :
    Manifest.create m1 host s1 = Manifest.create m2 host s2 := by
  simp only [Manifest.create, hname, hbid, hbver]

def c9aManifest : Manifest :=
  ⟨"W9", .dict [("CFBundleIdentifier", .str ("com.w9")),
                ("CFBundleShortVersionString", .str ("9.0")),
                ("ExtraKey", .str ("extra"))]⟩

def c9bManifest : Manifest :=
  ⟨"W9", .dict [("CFBundleShortVersionString", .str ("9.0")),
                ("CFBundleIdentifier", .str ("com.w9"))]⟩

/-- Claim C9, witness: two bundles differing in extra metadata and key
order, called with different `secure` flags, produce identical results. -/
theorem C9_depends_only_on_witness :
    pyIndex c9aManifest.info ("CFBundleIdentifier") =
      pyIndex c9bManifest.info ("CFBundleIdentifier") ∧
    Manifest.create c9aManifest ("https://h/w9.ipa") true =
      Manifest.create c9bManifest ("https://h/w9.ipa") false :=
  ⟨rfl, C9_depends_only_on c9aManifest c9bManifest ("https://h/w9.ipa") true false
    rfl rfl rfl⟩

/-! Claim C1: the round trip through the serialized manifest. -/

def c1Manifest : Manifest :=
  ⟨"A", .dict [("CFBundleIdentifier", .str ("com.example.a")),
               ("CFBundleShortVersionString", .str ("1.0"))]⟩

def c1Bytes : List Char :=
  match Manifest.create c1Manifest ("https://h/x\ry") true with
  | .ok b => b
  | .error _ => []

def manifestUrlOf (b : List Char) : Option PlistValue :=
  (plistlib_loads b).bind (fun doc => (manifestAsset doc).bind (fun a => a.dGet ("url")))

/-- Claim C1, counterexample: `c1Manifest` contains both required keys, yet
for the host URL `"https://h/x\ry"` the bytes `build` returns decode to a
manifest whose `items[0].assets[0].url` is `"https://h/x\ny"`, not the
supplied host URL verbatim — `plistlib._escape` rewrites the carriage
return to a newline on the way out. -/
theorem c1_counterexample :
    pyIndex c1Manifest.info ("CFBundleIdentifier") = .ok (.str ("com.example.a")) ∧
    pyIndex c1Manifest.info ("CFBundleShortVersionString") = .ok (.str ("1.0")) ∧
    Manifest.create c1Manifest ("https://h/x\ry") true = .ok c1Bytes ∧
    manifestUrlOf c1Bytes = some (.str ("https://h/x\ny")) ∧
    PlistValue.str ("https://h/x\ny") ≠ PlistValue.str ("https://h/x\ry") := by
  refine ⟨rfl, rfl, rfl, rfl, ?_⟩
  intro h
  injection h with h
  exact absurd h (by decide)

/-- Claim C1 (amended): for every AppBundle whose metadata contains both
required keys and every host URL, provided the host URL, the bundle name
and every string inside the two metadata values are free of carriage
returns and of the control characters `plistlib` rejects, decoding the
bytes returned by `build` yields a mapping with
`items[0].assets[0].url` equal to the host URL, `items[0].assets[0].kind`
equal to `"software-package"`, `items[0].metadata.bundle-identifier` and
`.bundle-version` equal to the two metadata values, `items[0].metadata.kind`
equal to `"software"` and `items[0].metadata.title` equal to the bundle
name. -/
theorem C1_round_trip (m : Manifest) (host : String) (secure : Bool)
    (bid bver : PlistValue) (b : List Char)
    (hbid : pyIndex m.info ("CFBundleIdentifier") = .ok bid)
    (hbver : pyIndex m.info ("CFBundleShortVersionString") = .ok bver)
    (hhost : cleanStr host = true) (hname : cleanStr m.appname = true)
    (hcb : cleanV bid = true) (hcv : cleanV bver = true)
    (hok : Manifest.create m host secure = .ok b) :
    ∃ doc, plistlib_loads b = some doc ∧
      (manifestAsset doc).bind (fun a => a.dGet ("url")) = some (.str host) ∧
      (manifestAsset doc).bind (fun a => a.dGet ("kind")) =
        some (.str ("software-package")) ∧
      (manifestMeta doc).bind (fun md => md.dGet ("bundle-identifier")) = some bid ∧
      (manifestMeta doc).bind (fun md => md.dGet ("bundle-version")) = some bver ∧
      (manifestMeta doc).bind (fun md => md.dGet ("kind")) = some (.str ("software")) ∧
      (manifestMeta doc).bind (fun md => md.dGet ("title")) = some (.str m.appname) := by
  simp only [Manifest.create, hbid, hbver, exceptBind_ok] at hok
  have hclean : cleanV (manifestDict m.appname host bid bver) = true := by
    simp only [manifestDict, cleanV, cleanP, cleanL]
    rw [hhost, hname, hcb, hcv]
    decide
  exact ⟨manifestDict m.appname host bid bver,
    plistlib_loads_dumps _ hclean b hok, rfl, rfl, rfl, rfl, rfl, rfl⟩

def c1wManifest : Manifest :=
  ⟨"OpenTerm", .dict [("CFBundleIdentifier", .str ("com.example.OpenTerm")),
                      ("CFBundleShortVersionString", .str ("1.0.0"))]⟩

def c1wBytes : List Char :=
  match Manifest.create c1wManifest ("https://example.com/OpenTerm.ipa") true with
  | .ok b => b
  | .error _ => []

/-- Claim C1, witness: concrete instantiation of `C1_round_trip` on the
spec's end-to-end scenario. -/
theorem C1_round_trip_witness :
    Manifest.create c1wManifest ("https://example.com/OpenTerm.ipa") true = .ok c1wBytes ∧
    cleanStr ("https://example.com/OpenTerm.ipa") = true ∧
    ∃ doc, plistlib_loads c1wBytes = some doc ∧
      (manifestAsset doc).bind (fun a => a.dGet ("url")) =
        some (.str ("https://example.com/OpenTerm.ipa")) ∧
      (manifestAsset doc).bind (fun a => a.dGet ("kind")) =
        some (.str ("software-package")) ∧
      (manifestMeta doc).bind (fun md => md.dGet ("bundle-identifier")) =
        some (.str ("com.example.OpenTerm")) ∧
      (manifestMeta doc).bind (fun md => md.dGet ("bundle-version")) =
        some (.str ("1.0.0")) ∧
      (manifestMeta doc).bind (fun md => md.dGet ("kind")) =
        some (.str ("software")) ∧
      (manifestMeta doc).bind (fun md => md.dGet ("title")) =
        some (.str ("OpenTerm")) :=
  ⟨rfl, rfl, C1_round_trip c1wManifest ("https://example.com/OpenTerm.ipa") true
    (.str ("com.example.OpenTerm")) (.str ("1.0.0")) c1wBytes
    rfl rfl rfl rfl rfl rfl rfl⟩

/-! Claim C2: the wire format of the serialized manifest. -/

theorem bplist_not_prefixOf_xml (t : List Char) :
    ("bplist00".data).isPrefixOf (xmlDecl ++ t) = false := by
  rw [show ("bplist00".data) = 'b' :: "plist00".data from rfl]
  rw [show xmlDecl ++ t =
    '<' :: ("?xml version=\"1.0\" encoding=\"UTF-8\"?>\n".data ++ t) from rfl]
  simp only [List.isPrefixOf]
  rw [show (('b' : Char) == '<') = false from rfl]
  simp

def c2Manifest : Manifest :=
  ⟨"B", .dict [("CFBundleIdentifier", .str ("com.example.b")),
               ("CFBundleShortVersionString", .str ("2.0"))]⟩

def c2Bytes : List Char :=
  match Manifest.create c2Manifest ("https://example.org/b.ipa") true with
  | .ok b => b
  | .error _ => []

/-- Claim C2, counterexample: the bytes `build` returns do not begin with
the binary property-list magic `bplist00`; they begin with the XML
declaration.  `Manifest.create` calls `plistlib.dumps` without a `fmt`
argument, so the default XML format, not `FMT_BINARY`, is produced. -/
theorem c2_counterexample :
    Manifest.create c2Manifest ("https://example.org/b.ipa") true = .ok c2Bytes ∧
    ("bplist00".data).isPrefixOf c2Bytes = false ∧
    ("<?xml version=\"1.0\" encoding=\"UTF-8\"?>\n".data).isPrefixOf c2Bytes = true :=
  ⟨rfl, rfl, rfl⟩

/-- Claim C2 (amended): every successful call of `build` serializes the
manifest to the XML property-list format — the output starts with the XML
plist header and never with `bplist00` — and keeps dictionary keys in
insertion order, not sorted: when the two metadata values are strings and
all inputs are clean, decoding the bytes with the order-preserving parser
lists the keys exactly as inserted:
`items, assets, kind, url, metadata, bundle-identifier, bundle-version,
kind, title`. -/
theorem C2_xml_format (m : Manifest) (host : String) (secure : Bool) (b : List Char)
    (hok : Manifest.create m host secure = .ok b) :
    ((xmlDecl ++ docType ++ plistOpenTag).isPrefixOf b = true ∧
     ("bplist00".data).isPrefixOf b = false) ∧
    (∀ bidS bverS : String,
      pyIndex m.info ("CFBundleIdentifier") = .ok (.str bidS) →
      pyIndex m.info ("CFBundleShortVersionString") = .ok (.str bverS) →
      cleanStr host = true → cleanStr m.appname = true →
      cleanStr bidS = true → cleanStr bverS = true →
      ∃ doc, plistlib_loads b = some doc ∧
        keysOf doc = ["items", "assets", "kind", "url", "metadata",
          "bundle-identifier", "bundle-version", "kind", "title"]) := by
  cases h1 : pyIndex m.info ("CFBundleIdentifier") with
  | error e => simp only [Manifest.create, h1, exceptBind_err] at hok; cases hok
  | ok bid =>
  cases h2 : pyIndex m.info ("CFBundleShortVersionString") with
  | error e => simp only [Manifest.create, h1, h2, exceptBind_ok, exceptBind_err] at hok; cases hok
  | ok bver =>
  simp only [Manifest.create, h1, h2, exceptBind_ok] at hok
  constructor
  · have hok2 := hok
    rw [plistlib_dumps] at hok2
    cases h3 : write_value (manifestDict m.appname host bid bver) 0 with
    | error e => rw [h3, exceptBind_err] at hok2; cases hok2
    | ok body =>
        rw [h3, exceptBind_ok, exceptPure_def] at hok2
        injection hok2 with hok2
        subst hok2
        constructor
        · rw [show xmlDecl ++ docType ++ plistOpenTag ++ body ++ plistCloseTag =
            (xmlDecl ++ docType ++ plistOpenTag) ++ (body ++ plistCloseTag) from by
              simp [List.append_assoc]]
          exact isPrefixOf_self_append _ _
        · rw [show xmlDecl ++ docType ++ plistOpenTag ++ body ++ plistCloseTag =
            xmlDecl ++ (docType ++ (plistOpenTag ++ (body ++ plistCloseTag))) from by
              simp [List.append_assoc]]
          exact bplist_not_prefixOf_xml _
  · intro bidS bverS hb1 hb2 hch hcn hcb hcv
    injection hb1 with hb1
    subst hb1
    injection hb2 with hb2
    subst hb2
    have hclean : cleanV (manifestDict m.appname host (.str bidS) (.str bverS)) = true := by
      simp only [manifestDict, cleanV, cleanP, cleanL]
      rw [hch, hcn, hcb, hcv]
      decide
    exact ⟨manifestDict m.appname host (.str bidS) (.str bverS),
      plistlib_loads_dumps _ hclean b hok, rfl⟩

def c2wManifest : Manifest :=
  ⟨"C", .dict [("CFBundleIdentifier", .str ("com.example.c")),
               ("CFBundleShortVersionString", .str ("3.0"))]⟩

def c2wBytes : List Char :=
  match Manifest.create c2wManifest ("https://example.org/c.ipa") true with
  | .ok b => b
  | .error _ => []

/-- Claim C2, witness: concrete instantiation of `C2_xml_format`. -/
theorem C2_xml_format_witness :
    Manifest.create c2wManifest ("https://example.org/c.ipa") true = .ok c2wBytes ∧
    ((xmlDecl ++ docType ++ plistOpenTag).isPrefixOf c2wBytes = true ∧
     ("bplist00".data).isPrefixOf c2wBytes = false) ∧
    ∃ doc, plistlib_loads c2wBytes = some doc ∧
      keysOf doc = ["items", "assets", "kind", "url", "metadata",
        "bundle-identifier", "bundle-version", "kind", "title"] :=
  have h := C2_xml_format c2wManifest ("https://example.org/c.ipa") true c2wBytes rfl
  ⟨rfl, h.1, h.2 ("com.example.c") ("3.0") rfl rfl rfl rfl rfl rfl⟩
